import Mathlib

/-!
# ParkSense: Dashboard, Upload page and API service

A shallow embedding of the pure parts of `a2/src/components/Dashboard.js`,
`a2/src/components/Upload.js` and `backend/server.js`, with the properties of
the sort/filter/render pipeline, the submit handlers, the camera effect and the
read routes.

Platform functions the source calls but does not define are handled as follows.

* `new Date(s)`: the time value of the parsed string is a parameter
  `parse : String → Option Int` (milliseconds; `none` is Invalid Date / NaN).
* `Array.prototype.sort`: run by the JavaScript engine, which turns a NaN
  comparator result into `+0`.  `arraySort` follows the sort of V8 (Node, Chrome):
  `CountAndMakeRun` on the front of the array, then `BinaryInsertionSort` of the
  remaining elements.  That is the whole of V8's sort for arrays of fewer than 64
  elements; on longer arrays V8 merges runs, where this model keeps inserting.  For
  a comparator that is consistent on the array ECMAScript fixes the result, the
  stable sorted permutation, whatever the engine and the length.
* Express routing: a route path matches the request path without its query string,
  ignoring letter case and one trailing slash.
* `axios.post`: the outcome of the request is an argument of the handler.
-/

namespace ParkSense

/-! ## Data model -/

/-- Entry document, the element type of `response.data` in the Dashboard. -/
structure Entry where
  _id : String
  image : String
  plate_number : String
  status : String
  timestamp : String
deriving DecidableEq

/-! ## `Array.prototype.sort` -/

/-- Subtraction of two JavaScript numbers that are time values: NaN (`none`) is
contagious, otherwise the sign of the result is the sign of the difference. -/
def numSub : Option Int → Option Int → Option Int
  | some x, some y => some (x - y)
  | _, _ => none

/-- ECMAScript `SortCompare` for a user comparator: a NaN result counts as `+0`. -/
def sortCompare {α : Type} (comparefn : α → α → Option Int) (x y : α) : Int :=
  match comparefn x y with
  | some v => v
  | none => 0

/-- The exit test of the loop of `CountAndMakeRun`: a descending run ends at
`order >= 0`, an ascending run at `order < 0`. -/
def runEnds (isDescending : Bool) (order : Int) : Bool :=
  if isDescending then decide (order ≥ 0) else decide (order < 0)

/-- The loop of `CountAndMakeRun`: the elements after `previousElement` that
continue the run, and what is left of the array. -/
def extendRun {α : Type} (comparefn : α → α → Option Int) (isDescending : Bool)
    (previousElement : α) : List α → List α × List α
  | [] => ([], [])
  | currentElement :: rest =>
    let order := sortCompare comparefn currentElement previousElement
    if runEnds isDescending order then
      ([], currentElement :: rest)
    else
      ((currentElement :: (extendRun comparefn isDescending currentElement rest).1),
        (extendRun comparefn isDescending currentElement rest).2)

/-- V8 `CountAndMakeRun`: the run at the front of the array, the longest
`a[0] <= a[1] <= ...` or the longest `a[0] > a[1] > ...`, the latter reversed, and
the elements after it. -/
def countAndMakeRun {α : Type} (comparefn : α → α → Option Int) : List α → List α × List α
  | [] => ([], [])
  | [x] => ([x], [])
  | x :: y :: rest =>
    let isDescending := decide (sortCompare comparefn y x < 0)
    let run := x :: y :: (extendRun comparefn isDescending y rest).1
    (if isDescending then run.reverse else run, (extendRun comparefn isDescending y rest).2)

/-- The inner `while (left < right)` loop of `BinaryInsertionSort`: binary search
for the index of the pivot in the sorted front `workArray`; `fuel` bounds the number
of rounds, and `right - left` rounds are enough. -/
def findInsertionPoint {α : Type} (comparefn : α → α → Option Int) (pivot : α)
    (workArray : List α) : Nat → Nat → Nat → Nat
  | 0, left, _ => left
  | fuel + 1, left, right =>
    if left < right then
      let mid := left + (right - left) / 2
      match workArray[mid]? with
      | none => left
      | some element =>
        if sortCompare comparefn pivot element < 0 then
          findInsertionPoint comparefn pivot workArray fuel left mid
        else
          findInsertionPoint comparefn pivot workArray fuel (mid + 1) right
    else left

/-- One round of the outer loop of `BinaryInsertionSort`: the pivot is moved to the
index the search ends at, the elements from there on move up by one. -/
def insertPivot {α : Type} (comparefn : α → α → Option Int) (sorted : List α) (pivot : α) :
    List α :=
  let left := findInsertionPoint comparefn pivot sorted sorted.length 0 sorted.length
  sorted.take left ++ pivot :: sorted.drop left

/-- V8 `BinaryInsertionSort`: the elements after the run are inserted one by one,
left to right. -/
def binaryInsertionSort {α : Type} (comparefn : α → α → Option Int) :
    List α → List α → List α
  | sorted, [] => sorted
  | sorted, pivot :: rest => binaryInsertionSort comparefn (insertPivot comparefn sorted pivot) rest

/-- Model of `Array.prototype.sort` with a comparator, on a copy of the list. -/
def arraySort {α : Type} (comparefn : α → α → Option Int) (l : List α) : List α :=
  binaryInsertionSort comparefn (countAndMakeRun comparefn l).1 (countAndMakeRun comparefn l).2

/-! ## Dashboard -/

/-- State of the Dashboard component (`useState` cells, in source order). -/
structure DashboardState where
  entries : List Entry
  sortOrder : String
  filterStatus : String
  error : String
deriving DecidableEq

/-- Initial values of the four `useState` calls. -/
def DashboardState.initial : DashboardState :=
  { entries := [], sortOrder := "desc", filterStatus := "all", error := "" }

/-- The `.then` branch of the fetch effect. -/
def fetchResolved (data : List Entry) (s : DashboardState) : DashboardState :=
  { s with entries := data, error := "" }

/-- The `.catch` branch of the fetch effect. -/
def fetchRejected (s : DashboardState) : DashboardState :=
  { s with error := "Error loading entries. Please try again later.", entries := [] }

/-- The `onChange` handler of the sort `select`. -/
def setSortOrder (v : String) (s : DashboardState) : DashboardState :=
  { s with sortOrder := v }

/-- The `onChange` handler of the filter `select`. -/
def setFilterStatus (v : String) (s : DashboardState) : DashboardState :=
  { s with filterStatus := v }

/-- The arrow function passed to `sort`:
`sortOrder === 'asc' ? dateA - dateB : dateB - dateA`. -/
def dateComparator (parse : String → Option Int) (sortOrder : String) (a b : Entry) :
    Option Int :=
  let dateA := parse a.timestamp
  let dateB := parse b.timestamp
  if sortOrder = "asc" then numSub dateA dateB else numSub dateB dateA

/-- Dashboard `sortedEntries`: `[...entries].sort(...)`. -/
def sortedEntries (parse : String → Option Int) (s : DashboardState) : List Entry :=
  arraySort (dateComparator parse s.sortOrder) s.entries

/-- Dashboard `filteredEntries`. -/
def filteredEntries (parse : String → Option Int) (s : DashboardState) : List Entry :=
  if s.filterStatus = "all" then sortedEntries parse s
  else (sortedEntries parse s).filter (fun entry => entry.status = s.filterStatus)

/-- One `<tr>` of the table body. -/
inductive TableRow where
  | placeholder (colSpan : String) (text : String)
  | entryRow (key : String) (imgSrc : String) (plate : String) (statusClass : String)
      (status : String) (time : String)
deriving DecidableEq

/-- The `<tr>` rendered for one entry. -/
def renderEntry (entry : Entry) : TableRow :=
  .entryRow entry._id ("data:image/jpeg;base64," ++ entry.image) entry.plate_number
    (if entry.status = "Authorized" then "authorized" else "unauthorized")
    entry.status entry.timestamp

/-- The children of `<tbody>`. -/
def tbodyRows (parse : String → Option Int) (s : DashboardState) : List TableRow :=
  if (filteredEntries parse s).length = 0 then [.placeholder "4" "No entries found."]
  else (filteredEntries parse s).map renderEntry

/-- Time values of the timestamps used in the examples below
(`new Date(s).getTime()` for these ISO strings); anything else is Invalid Date. -/
def exampleDate : String → Option Int
  | "2024-01-01T00:00:00Z" => some 1704067200000
  | "2024-01-02T00:00:00Z" => some 1704153600000
  | "2024-01-03T00:00:00Z" => some 1704240000000
  | _ => none

def entryA : Entry :=
  { _id := "a", image := "", plate_number := "KA01AB1234", status := "Authorized",
    timestamp := "2024-01-01T00:00:00Z" }

def entryB : Entry :=
  { _id := "b", image := "", plate_number := "KA02CD5678", status := "Unauthorized",
    timestamp := "2024-01-02T00:00:00Z" }

def entryC : Entry :=
  { _id := "c", image := "", plate_number := "KA03EF9012", status := "Authorized",
    timestamp := "2024-01-03T00:00:00Z" }

/-- Same timestamp as `entryA`, another document. -/
def entryA2 : Entry :=
  { _id := "a2", image := "", plate_number := "KA09ZZ0000", status := "Authorized",
    timestamp := "2024-01-01T00:00:00Z" }

/-- A logged entry with the given id and timestamp. -/
def sampleEntry (id : String) (timestamp : String) : Entry :=
  { _id := id, image := "", plate_number := "", status := "Authorized", timestamp := timestamp }

/-- Seven fetched entries, the fifth with an unparsable timestamp. -/
def mixedEntries : List Entry :=
  [sampleEntry "e0" "2024-01-01T00:00:00Z", sampleEntry "e1" "2024-01-03T00:00:00Z",
    sampleEntry "e2" "2024-01-02T00:00:00Z", sampleEntry "e3" "2024-01-01T00:00:00Z",
    sampleEntry "e4" "garbage", sampleEntry "e5" "2024-01-02T00:00:00Z",
    sampleEntry "e6" "2024-01-02T00:00:00Z"]

/-! ## Upload page -/

/-- Blob obtained from the canvas data URL. -/
structure Blob where
  content : String
deriving DecidableEq

/-- A `MediaStream`, as the list of the ids of its tracks (`getTracks()`). -/
structure MediaStream where
  tracks : List Nat
deriving DecidableEq

/-- State of the Upload component (`useState` cells). -/
structure UploadState where
  image : Option Blob
  preview : Option String
  text : String
  error : String
  result : String
  stream : Option MediaStream
deriving DecidableEq

/-- Initial values of the `useState` calls. -/
def UploadState.initial : UploadState :=
  { image := none, preview := none, text := "", error := "", result := "", stream := none }

/-- Body of a request sent by the page. -/
inductive RequestBody where
  | formData (field : String) (file : Blob) (filename : String)
  | json (text : String)
deriving DecidableEq

/-- An HTTP request issued through `axios.post`. -/
structure Request where
  method : String
  url : String
  body : RequestBody
deriving DecidableEq

/-- Payload `response.data` of a successful `/upload`. -/
structure UploadData where
  plate_number : String
  status : String
  timestamp : String
deriving DecidableEq

/-- Payload `response.data` of a successful `/text`. -/
structure TextData where
  message : String
  timestamp : String
deriving DecidableEq

/-- Body `err.response.data`, with its optional `error` field. -/
structure ErrorData where
  error : Option String
deriving DecidableEq

/-- Object `err.response`, with its optional `data`. -/
structure ErrorResponse where
  data : Option ErrorData
deriving DecidableEq

/-- The value a rejected `axios.post` throws; `response` is absent when the
server was not reached. -/
structure AxiosError where
  response : Option ErrorResponse
deriving DecidableEq

/-- Outcome of an awaited `axios.post`. -/
inductive AxiosResult (α : Type) where
  | resolved (data : α)
  | rejected (err : AxiosError)
deriving DecidableEq

/-- The optional chain `err.response?.data?.error`. -/
def errorField (err : AxiosError) : Option String :=
  match err.response with
  | none => none
  | some response =>
    match response.data with
    | none => none
    | some data => data.error

/-- JavaScript `v || d` for an optional string `v`: `undefined` and the empty
string are falsy. -/
def orDefault (v : Option String) (d : String) : String :=
  match v with
  | none => d
  | some t => if t = "" then d else t

/-- ECMAScript WhiteSpace and LineTerminator code points, the ones `trim` strips. -/
def isJsWhiteSpace (c : Char) : Bool :=
  let n := c.toNat
  n = 0x09 || n = 0x0A || n = 0x0B || n = 0x0C || n = 0x0D || n = 0x20 || n = 0xA0
    || n = 0x1680 || (0x2000 ≤ n && n ≤ 0x200A) || n = 0x2028 || n = 0x2029
    || n = 0x202F || n = 0x205F || n = 0x3000 || n = 0xFEFF

/-- Model of `String.prototype.trim`: white space is dropped at both ends. -/
def jsTrim (t : String) : String :=
  String.mk ((t.data.dropWhile isJsWhiteSpace).reverse.dropWhile isJsWhiteSpace).reverse

/-- The template literal of the image result. -/
def imageResult (data : UploadData) : String :=
  "Plate: " ++ data.plate_number ++ " | Status: " ++ data.status ++ " | Time: " ++ data.timestamp

/-- The template literal of the text result. -/
def textResult (data : TextData) : String :=
  "Response: " ++ data.message ++ " | Time: " ++ data.timestamp

/-- The request of `axios.post('http://localhost:5000/upload', formData)`, with
`formData.append('file', image, 'captured-image.jpg')`. -/
def uploadRequest (image : Blob) : Request :=
  { method := "POST", url := "http://localhost:5000/upload",
    body := .formData "file" image "captured-image.jpg" }

/-- The request of `axios.post('http://localhost:5000/text', { text })`. -/
def textRequest (text : String) : Request :=
  { method := "POST", url := "http://localhost:5000/text", body := .json text }

/-- Upload `handleImageSubmit`: the state after the handler has run to its end
and the requests it issued; `post` is the outcome of `axios.post`. -/
def handleImageSubmit (post : Request → AxiosResult UploadData) (s : UploadState) :
    UploadState × List Request :=
  match s.image with
  | none => ({ s with error := "Please capture an image." }, [])
  | some image =>
    match post (uploadRequest image) with
    | .resolved data =>
      ({ s with result := imageResult data, image := none, preview := none, error := "" },
        [uploadRequest image])
    | .rejected err =>
      ({ s with error := orDefault (errorField err) "Error uploading image." },
        [uploadRequest image])

/-- Upload `handleTextSubmit`. -/
def handleTextSubmit (post : Request → AxiosResult TextData) (s : UploadState) :
    UploadState × List Request :=
  if jsTrim s.text = "" then ({ s with error := "Please enter some text." }, [])
  else
    match post (textRequest s.text) with
    | .resolved data =>
      ({ s with result := textResult data, text := "", error := "" }, [textRequest s.text])
    | .rejected err =>
      ({ s with error := orDefault (errorField err) "Error submitting text." },
        [textRequest s.text])

/-- Effect of `track.stop()` on the set of live tracks of the device. -/
def stopTrack (live : List Nat) (track : Nat) : List Nat :=
  live.filter (fun t => t != track)

/-- The cleanup arrow function the effect callback returns.  `stream` is the
binding of the render that created the callback. -/
def effectCleanup (stream : Option MediaStream) (live : List Nat) : List Nat :=
  match stream with
  | none => live
  | some mediaStream => mediaStream.tracks.foldl stopTrack live

/-- A mounted Upload page.  `effectRender` is the state of the render whose effect
callback React ran: with the dependency list `[]` that is the first render, and its
cleanup is the one React keeps for unmount. -/
structure UploadPage where
  state : UploadState
  srcObject : Option MediaStream
  effectRender : UploadState
  liveTracks : List Nat
deriving DecidableEq

/-- First render and the run of the effect: `startCamera()` is called and the
cleanup of this render is registered. -/
def UploadPage.mount : UploadPage :=
  { state := UploadState.initial, srcObject := none,
    effectRender := UploadState.initial, liveTracks := [] }

/-- What can happen to a mounted page. -/
inductive UploadEvent where
  | cameraGranted (mediaStream : MediaStream)
  | cameraDenied (message : String)
  | capture (imageData : String)
  | blobReady (blob : Blob)
  | typeText (value : String)
  | imageSubmit (outcome : AxiosResult UploadData)
  | textSubmit (outcome : AxiosResult TextData)
deriving DecidableEq

/-- One event on a mounted page. -/
def UploadPage.step (p : UploadPage) : UploadEvent → UploadPage
  | .cameraGranted mediaStream =>
    { p with state := { p.state with stream := some mediaStream },
             srcObject := some mediaStream,
             liveTracks := p.liveTracks ++ mediaStream.tracks }
  | .cameraDenied message =>
    { p with state := { p.state with error := "Error accessing camera: " ++ message } }
  | .capture imageData => { p with state := { p.state with preview := some imageData } }
  | .blobReady blob => { p with state := { p.state with image := some blob } }
  | .typeText value => { p with state := { p.state with text := value } }
  | .imageSubmit outcome => { p with state := (handleImageSubmit (fun _ => outcome) p.state).1 }
  | .textSubmit outcome => { p with state := (handleTextSubmit (fun _ => outcome) p.state).1 }

/-- A sequence of events on a mounted page. -/
def UploadPage.run (p : UploadPage) (events : List UploadEvent) : UploadPage :=
  events.foldl UploadPage.step p

/-- Unmount: React calls the registered cleanup; the result is the set of tracks
still live. -/
def UploadPage.unmount (p : UploadPage) : List Nat :=
  effectCleanup p.effectRender.stream p.liveTracks

/-! ## API service (`backend/server.js`) -/

/-- The connected database handle: `db.collection(name).find().toArray()` gives all
documents of the named collection in natural order. -/
structure Database (D : Type) where
  collection : String → List D

/-- What a client of the service gets. -/
inductive HttpResponse (D : Type) where
  | json (body : List D)
  | notFound
  | noResponse
deriving DecidableEq

/-- A route handler body: `res.json(await db.collection(name).find().toArray())`.
While `db` is still `undefined` the handler throws before it answers. -/
def findAll {D : Type} (db : Option (Database D)) (name : String) : HttpResponse D :=
  match db with
  | none => .noResponse
  | some d => .json (d.collection name)

/-- The path of a request URL: the part before the query string. -/
def requestPath (url : String) : String :=
  String.mk (url.data.takeWhile (fun ch => ch != '?'))

/-- Express route matching with the default settings (not case sensitive, not
strict): the request path equals the route path up to the case of ASCII letters,
with or without one trailing slash. -/
def routeMatches (route : String) (url : String) : Bool :=
  let path := (requestPath url).data.map Char.toUpper
  let pattern := route.data.map Char.toUpper
  path == pattern || path == pattern ++ ['/']

/-- Dispatch of a GET request over the three `app.get` routes, in the order they
are registered; a request no route matches gets the framework's 404. -/
def handleGet {D : Type} (db : Option (Database D)) (url : String) : HttpResponse D :=
  if routeMatches "/api/current-logs" url then findAll db "car_logs"
  else if routeMatches "/api/previous-logs" url then findAll db "visitors"
  else if routeMatches "/api/slots" url then findAll db "slots"
  else .notFound

/-- Path of the URL the Dashboard fetches on mount (`http://localhost:5000/api/entries`). -/
def dashboardFetchPath : String := "/api/entries"

/-- The Dashboard's fetch effect run against the service: a JSON answer resolves
the promise, anything else rejects it. -/
def dashboardMount (db : Option (Database Entry)) : DashboardState :=
  match handleGet db dashboardFetchPath with
  | .json data => fetchResolved data DashboardState.initial
  | .notFound => fetchRejected DashboardState.initial
  | .noResponse => DashboardState.initial

/-- A store whose `car_logs` and `entries` collections hold two documents each. -/
def exampleDb : Database Entry :=
  { collection := fun name =>
      if name = "car_logs" then [entryA, entryB]
      else if name = "entries" then [entryA, entryB]
      else [] }

/-- A page state with a pending capture. -/
def capturedState : UploadState :=
  { UploadState.initial with
    image := some { content := "jpeg-bytes" }, preview := some "data:image/jpeg;base64,AAAA" }

/-- A rejection whose response body carries `error: ""`. -/
def emptyErrorRejection : AxiosError :=
  { response := some { data := some { error := some "" } } }

/-- A rejection whose response body carries `error: "No plate detected"`. -/
def plateErrorRejection : AxiosError :=
  { response := some { data := some { error := some "No plate detected" } } }

/-- A successful `/upload` answer. -/
def exampleUploadData : UploadData :=
  { plate_number := "KA01AB1234", status := "Authorized", timestamp := "2024-01-01T00:00:00Z" }

/-- A camera stream with two tracks. -/
def exampleStream : MediaStream := { tracks := [1, 2] }

/-! ## Lemmas on `arraySort` -/

theorem extendRun_append {α : Type} (c : α → α → Option Int) (d : Bool) :
    ∀ (l : List α) (p : α), (extendRun c d p l).1 ++ (extendRun c d p l).2 = l := by
  intro l
  induction l with
  | nil => intro p; rfl
  | cons x xs ih =>
    intro p
    unfold extendRun
    simp only
    by_cases h : runEnds d (sortCompare c x p) = true
    · rw [if_pos h]; rfl
    · rw [if_neg h]; simp [ih x]

theorem countAndMakeRun_perm {α : Type} (c : α → α → Option Int) (l : List α) :
    ((countAndMakeRun c l).1 ++ (countAndMakeRun c l).2).Perm l := by
  match l with
  | [] => exact List.Perm.refl _
  | [x] => exact List.Perm.refl _
  | x :: y :: rest =>
    have h := extendRun_append c (decide (sortCompare c y x < 0)) rest y
    unfold countAndMakeRun
    simp only
    split
    · refine (List.Perm.append_right _ (List.reverse_perm _)).trans ?_
      simp [h]
    · simp [h]

theorem insertPivot_perm {α : Type} (c : α → α → Option Int) (s : List α) (x : α) :
    (insertPivot c s x).Perm (x :: s) := by
  unfold insertPivot
  simp only
  refine List.perm_middle.trans ?_
  rw [List.take_append_drop]

theorem binaryInsertionSort_perm {α : Type} (c : α → α → Option Int) (rest : List α) :
    ∀ s : List α, (binaryInsertionSort c s rest).Perm (s ++ rest) := by
  induction rest with
  | nil => intro s; simp [binaryInsertionSort]
  | cons x xs ih =>
    intro s
    unfold binaryInsertionSort
    refine (ih (insertPivot c s x)).trans ?_
    refine (List.Perm.append_right xs (insertPivot_perm c s x)).trans ?_
    have hmid : (s ++ x :: xs).Perm (x :: (s ++ xs)) := List.perm_middle
    simpa using hmid.symm

theorem arraySort_perm {α : Type} (c : α → α → Option Int) (l : List α) :
    (arraySort c l).Perm l :=
  (binaryInsertionSort_perm c _ _).trans (countAndMakeRun_perm c l)


theorem extendRun_ascending {α : Type} (c : α → α → Option Int) (key : α → Int) :
    ∀ (l : List α) (p : α),
      (∀ x ∈ p :: l, ∀ y ∈ p :: l, (sortCompare c x y < 0 ↔ key x < key y)) →
      (p :: (extendRun c false p l).1).Pairwise (fun a b => key a ≤ key b) := by
  intro l
  induction l with
  | nil => intro p _; simp [extendRun]
  | cons x xs ih =>
    intro p hk
    unfold extendRun
    simp only
    by_cases h : runEnds false (sortCompare c x p) = true
    · rw [if_pos h]; simp
    · rw [if_neg h]
      have hpx : key p ≤ key x := by
        have h1 : ¬ sortCompare c x p < 0 := by simpa [runEnds] using h
        have h2 := (hk x (by simp) p (by simp)).not.mp h1
        omega
      have hx := ih x (fun a ha b hb => hk a (List.mem_cons_of_mem p ha) b (List.mem_cons_of_mem p hb))
      refine List.pairwise_cons.mpr ⟨?_, hx⟩
      intro z hz
      rcases List.mem_cons.mp hz with rfl | hz
      · exact hpx
      · exact le_trans hpx ((List.pairwise_cons.mp hx).1 z hz)

theorem extendRun_descending {α : Type} (c : α → α → Option Int) (key : α → Int) :
    ∀ (l : List α) (p : α),
      (∀ x ∈ p :: l, ∀ y ∈ p :: l, (sortCompare c x y < 0 ↔ key x < key y)) →
      (p :: (extendRun c true p l).1).Pairwise (fun a b => key b < key a) := by
  intro l
  induction l with
  | nil => intro p _; simp [extendRun]
  | cons x xs ih =>
    intro p hk
    unfold extendRun
    simp only
    by_cases h : runEnds true (sortCompare c x p) = true
    · rw [if_pos h]; simp
    · rw [if_neg h]
      have hpx : key x < key p := by
        have h1 : sortCompare c x p < 0 := by simpa [runEnds] using h
        exact (hk x (by simp) p (by simp)).mp h1
      have hx := ih x (fun a ha b hb => hk a (List.mem_cons_of_mem p ha) b (List.mem_cons_of_mem p hb))
      refine List.pairwise_cons.mpr ⟨?_, hx⟩
      intro z hz
      rcases List.mem_cons.mp hz with rfl | hz
      · exact hpx
      · exact lt_trans ((List.pairwise_cons.mp hx).1 z hz) hpx

/-- A strictly descending list holds at most one element of each key, so reversing
it does not change the order within a key. -/
theorem filter_reverse_of_descending {α : Type} (key : α → Int) (t : Int) (run : List α)
    (h : run.Pairwise (fun a b => key b < key a)) :
    run.reverse.filter (fun e => decide (key e = t)) = run.filter (fun e => decide (key e = t)) := by
  rw [List.filter_reverse]
  have hsub : (run.filter (fun e => decide (key e = t))).Pairwise (fun a b => key b < key a) :=
    h.sublist (List.filter_sublist run)
  have hall : ∀ e ∈ run.filter (fun e => decide (key e = t)), key e = t := by
    intro e he
    simpa using (List.mem_filter.mp he).2
  match hf : run.filter (fun e => decide (key e = t)) with
  | [] => rfl
  | [a] => rfl
  | a :: b :: r =>
    rw [hf] at hsub hall
    have h1 := (List.pairwise_cons.mp hsub).1 b (by simp)
    have ha := hall a (by simp)
    have hb := hall b (by simp)
    omega

theorem countAndMakeRun_sorted {α : Type} (c : α → α → Option Int) (key : α → Int)
    (l : List α) (hk : ∀ x ∈ l, ∀ y ∈ l, (sortCompare c x y < 0 ↔ key x < key y)) :
    (countAndMakeRun c l).1.Pairwise (fun a b => key a ≤ key b) := by
  match l with
  | [] => simp [countAndMakeRun]
  | [x] => simp [countAndMakeRun]
  | x :: y :: rest =>
    have hk2 : ∀ a ∈ y :: rest, ∀ b ∈ y :: rest, (sortCompare c a b < 0 ↔ key a < key b) :=
      fun a ha b hb => hk a (List.mem_cons_of_mem x ha) b (List.mem_cons_of_mem x hb)
    unfold countAndMakeRun
    simp only
    by_cases hd : sortCompare c y x < 0
    · have hyx : key y < key x := (hk y (by simp) x (by simp)).mp hd
      have hrun := extendRun_descending c key rest y hk2
      simp only [hd, decide_True, if_true]
      rw [List.pairwise_reverse]
      have : (x :: y :: (extendRun c true y rest).1).Pairwise (fun a b => key b < key a) := by
        refine List.pairwise_cons.mpr ⟨?_, hrun⟩
        intro z hz
        rcases List.mem_cons.mp hz with rfl | hz
        · exact hyx
        · exact lt_trans ((List.pairwise_cons.mp hrun).1 z hz) hyx
      exact this.imp (fun h => le_of_lt h)
    · have hxy : key x ≤ key y := by
        have := (hk y (by simp) x (by simp)).not.mp hd
        omega
      have hrun := extendRun_ascending c key rest y hk2
      simp only [hd, decide_False, Bool.false_eq_true, if_false]
      refine List.pairwise_cons.mpr ⟨?_, hrun⟩
      intro z hz
      rcases List.mem_cons.mp hz with rfl | hz
      · exact hxy
      · exact le_trans hxy ((List.pairwise_cons.mp hrun).1 z hz)

theorem countAndMakeRun_filter {α : Type} (c : α → α → Option Int) (key : α → Int)
    (l : List α) (hk : ∀ x ∈ l, ∀ y ∈ l, (sortCompare c x y < 0 ↔ key x < key y)) (t : Int) :
    ((countAndMakeRun c l).1 ++ (countAndMakeRun c l).2).filter (fun e => decide (key e = t))
      = l.filter (fun e => decide (key e = t)) := by
  match l with
  | [] => simp [countAndMakeRun]
  | [x] => simp [countAndMakeRun]
  | x :: y :: rest =>
    have hk2 : ∀ a ∈ y :: rest, ∀ b ∈ y :: rest, (sortCompare c a b < 0 ↔ key a < key b) :=
      fun a ha b hb => hk a (List.mem_cons_of_mem x ha) b (List.mem_cons_of_mem x hb)
    unfold countAndMakeRun
    simp only
    by_cases hd : sortCompare c y x < 0
    · have hyx : key y < key x := (hk y (by simp) x (by simp)).mp hd
      have hrun := extendRun_descending c key rest y hk2
      have happ := extendRun_append c true rest y
      simp only [hd, decide_True, if_true]
      have hdesc : (x :: y :: (extendRun c true y rest).1).Pairwise (fun a b => key b < key a) := by
        refine List.pairwise_cons.mpr ⟨?_, hrun⟩
        intro z hz
        rcases List.mem_cons.mp hz with rfl | hz
        · exact hyx
        · exact lt_trans ((List.pairwise_cons.mp hrun).1 z hz) hyx
      rw [List.filter_append, filter_reverse_of_descending key t _ hdesc, ← List.filter_append]
      simp only [List.cons_append, happ]
    · have happ := extendRun_append c false rest y
      simp only [hd, decide_False, Bool.false_eq_true, if_false, List.cons_append, happ]


/-- The binary search is never cut short: from `right - left` rounds on, the number
of rounds allowed does not change the index it ends at, whatever the comparator. -/
theorem findInsertionPoint_fuel {α : Type} (c : α → α → Option Int) (pivot : α)
    (arr : List α) :
    ∀ (fuel fuel2 left right : Nat), right ≤ arr.length → right - left ≤ fuel →
      right - left ≤ fuel2 →
      findInsertionPoint c pivot arr fuel left right
        = findInsertionPoint c pivot arr fuel2 left right := by
  intro fuel
  induction fuel with
  | zero =>
    intro fuel2 left right _ h1 _
    have hle : ¬ left < right := by omega
    cases fuel2 with
    | zero => rfl
    | succ m =>
      show left = findInsertionPoint c pivot arr (m + 1) left right
      unfold findInsertionPoint
      rw [if_neg hle]
  | succ n ih =>
    intro fuel2 left right hr h1 h2
    cases fuel2 with
    | zero =>
      have hle : ¬ left < right := by omega
      show findInsertionPoint c pivot arr (n + 1) left right = left
      unfold findInsertionPoint
      rw [if_neg hle]
    | succ m =>
      unfold findInsertionPoint
      by_cases hlt : left < right
      · rw [if_pos hlt, if_pos hlt]
        have hmid : left + (right - left) / 2 < arr.length := by omega
        simp only [List.getElem?_eq_getElem hmid]
        by_cases hc : sortCompare c pivot arr[left + (right - left) / 2] < 0
        · rw [if_pos hc, if_pos hc]
          exact ih m left _ (by omega) (by omega) (by omega)
        · rw [if_neg hc, if_neg hc]
          exact ih m _ right hr (by omega) (by omega)
      · rw [if_neg hlt, if_neg hlt]

/-- On a sorted array the binary search ends at the upper bound of the pivot:
everything before the index is not above the pivot, everything from the index on is
above it. -/
theorem findInsertionPoint_spec {α : Type} (c : α → α → Option Int) (key : α → Int)
    (pivot : α) (arr : List α) (hs : arr.Pairwise (fun a b => key a ≤ key b))
    (hk : ∀ y ∈ arr, (sortCompare c pivot y < 0 ↔ key pivot < key y)) :
    ∀ (fuel left right : Nat), left ≤ right → right ≤ arr.length → right - left ≤ fuel →
      (∀ (i : Nat) (h : i < arr.length), i < left → key arr[i] ≤ key pivot) →
      (∀ (i : Nat) (h : i < arr.length), right ≤ i → key pivot < key arr[i]) →
      findInsertionPoint c pivot arr fuel left right ≤ arr.length
        ∧ (∀ (i : Nat) (h : i < arr.length),
            i < findInsertionPoint c pivot arr fuel left right → key arr[i] ≤ key pivot)
        ∧ (∀ (i : Nat) (h : i < arr.length),
            findInsertionPoint c pivot arr fuel left right ≤ i → key pivot < key arr[i]) := by
  have hsorted := List.pairwise_iff_getElem.mp hs
  intro fuel
  induction fuel with
  | zero =>
    intro left right hlr hr hfuel hlo hhi
    have : left = right := by omega
    subst this
    exact ⟨hr, hlo, hhi⟩
  | succ n ih =>
    intro left right hlr hr hfuel hlo hhi
    unfold findInsertionPoint
    by_cases hlt : left < right
    · rw [if_pos hlt]
      have hmid : left + (right - left) / 2 < arr.length := by omega
      have hmidr : left + (right - left) / 2 < right := by omega
      simp only [List.getElem?_eq_getElem hmid]
      by_cases hc : sortCompare c pivot arr[left + (right - left) / 2] < 0
      · rw [if_pos hc]
        have hkey : key pivot < key arr[left + (right - left) / 2] :=
          (hk _ (List.getElem_mem hmid)).mp hc
        apply ih left (left + (right - left) / 2) (by omega) (by omega) (by omega) hlo
        intro i hi hmi
        by_cases heq : left + (right - left) / 2 = i
        · subst heq; exact hkey
        · exact lt_of_lt_of_le hkey (hsorted _ i hmid hi (by omega))
      · rw [if_neg hc]
        have hkey : key arr[left + (right - left) / 2] ≤ key pivot := by
          have := (hk _ (List.getElem_mem hmid)).not.mp hc
          omega
        apply ih (left + (right - left) / 2 + 1) right (by omega) hr (by omega) _ hhi
        intro i hi him
        by_cases heq : i = left + (right - left) / 2
        · subst heq; exact hkey
        · exact le_trans (hsorted i _ hi hmid (by omega)) hkey
    · rw [if_neg hlt]
      have : left = right := by omega
      subst this
      exact ⟨hr, hlo, hhi⟩

theorem insertPivot_split {α : Type} (c : α → α → Option Int) (key : α → Int)
    (pivot : α) (s : List α) (hs : s.Pairwise (fun a b => key a ≤ key b))
    (hk : ∀ y ∈ s, (sortCompare c pivot y < 0 ↔ key pivot < key y)) :
    (∀ y ∈ s.take (findInsertionPoint c pivot s s.length 0 s.length), key y ≤ key pivot)
      ∧ (∀ y ∈ s.drop (findInsertionPoint c pivot s s.length 0 s.length), key pivot < key y) := by
  have h := findInsertionPoint_spec c key pivot s hs hk s.length 0 s.length
    (Nat.zero_le _) (Nat.le_refl _) (by omega)
    (fun i _ hi => absurd hi (Nat.not_lt_zero i))
    (fun i hi hle => absurd hi (by omega))
  obtain ⟨_, hlo, hhi⟩ := h
  constructor
  · intro y hy
    obtain ⟨i, hi, rfl⟩ := List.mem_take_iff_getElem.mp hy
    exact hlo i (by omega) (by omega)
  · intro y hy
    obtain ⟨i, hi, rfl⟩ := List.mem_drop_iff_getElem.mp hy
    exact hhi _ (by omega) (by omega)

theorem insertPivot_sorted {α : Type} (c : α → α → Option Int) (key : α → Int)
    (pivot : α) (s : List α) (hs : s.Pairwise (fun a b => key a ≤ key b))
    (hk : ∀ y ∈ s, (sortCompare c pivot y < 0 ↔ key pivot < key y)) :
    (insertPivot c s pivot).Pairwise (fun a b => key a ≤ key b) := by
  obtain ⟨hlo, hhi⟩ := insertPivot_split c key pivot s hs hk
  have hsplit : (s.take (findInsertionPoint c pivot s s.length 0 s.length)
      ++ s.drop (findInsertionPoint c pivot s s.length 0 s.length)).Pairwise
      (fun a b => key a ≤ key b) := by
    rw [List.take_append_drop]; exact hs
  obtain ⟨h1, h2, h3⟩ := List.pairwise_append.mp hsplit
  unfold insertPivot
  simp only
  refine List.pairwise_append.mpr ⟨h1, List.pairwise_cons.mpr ⟨fun z hz => le_of_lt (hhi z hz), h2⟩, ?_⟩
  intro a ha b hb
  rcases List.mem_cons.mp hb with rfl | hb
  · exact hlo a ha
  · exact h3 a ha b hb

theorem insertPivot_filter {α : Type} (c : α → α → Option Int) (key : α → Int)
    (pivot : α) (s : List α) (hs : s.Pairwise (fun a b => key a ≤ key b))
    (hk : ∀ y ∈ s, (sortCompare c pivot y < 0 ↔ key pivot < key y)) (t : Int) :
    (insertPivot c s pivot).filter (fun e => decide (key e = t))
      = (s ++ [pivot]).filter (fun e => decide (key e = t)) := by
  obtain ⟨_, hhi⟩ := insertPivot_split c key pivot s hs hk
  have hs2 : s.filter (fun e => decide (key e = t))
      = (s.take (findInsertionPoint c pivot s s.length 0 s.length)).filter
          (fun e => decide (key e = t))
        ++ (s.drop (findInsertionPoint c pivot s s.length 0 s.length)).filter
          (fun e => decide (key e = t)) := by
    rw [← List.filter_append, List.take_append_drop]
  unfold insertPivot
  simp only
  rw [List.filter_append, List.filter_append, hs2]
  by_cases hp : key pivot = t
  · have hdrop : (s.drop (findInsertionPoint c pivot s s.length 0 s.length)).filter
        (fun e => decide (key e = t)) = [] := by
      rw [List.filter_eq_nil_iff]
      intro a ha
      have := hhi a ha
      simp only [decide_eq_true_eq]
      omega
    simp [List.filter_cons, hp, hdrop]
  · simp [List.filter_cons, hp]

theorem binaryInsertionSort_sorted {α : Type} (c : α → α → Option Int) (key : α → Int)
    (rest : List α) :
    ∀ s : List α, s.Pairwise (fun a b => key a ≤ key b) →
      (∀ x ∈ s ++ rest, ∀ y ∈ s ++ rest, (sortCompare c x y < 0 ↔ key x < key y)) →
      (binaryInsertionSort c s rest).Pairwise (fun a b => key a ≤ key b)
        ∧ ∀ t : Int, (binaryInsertionSort c s rest).filter (fun e => decide (key e = t))
            = (s ++ rest).filter (fun e => decide (key e = t)) := by
  induction rest with
  | nil => intro s hs _; simp [binaryInsertionSort, hs]
  | cons x xs ih =>
    intro s hs hk
    have hkx : ∀ y ∈ s, (sortCompare c x y < 0 ↔ key x < key y) :=
      fun y hy => hk x (by simp) y (by simp [hy])
    have hmem : ∀ a, a ∈ insertPivot c s x ++ xs → a ∈ s ++ x :: xs := by
      intro a ha
      rcases List.mem_append.mp ha with h | h
      · have := (insertPivot_perm c s x).mem_iff.mp h
        rcases List.mem_cons.mp this with rfl | h2
        · simp
        · simp [h2]
      · simp [h]
    obtain ⟨h1, h2⟩ := ih (insertPivot c s x) (insertPivot_sorted c key x s hs hkx)
      (fun a ha b hb => hk a (hmem a ha) b (hmem b hb))
    unfold binaryInsertionSort
    refine ⟨h1, ?_⟩
    intro t
    rw [h2 t, List.filter_append, insertPivot_filter c key x s hs hkx t, ← List.filter_append]
    simp

/-- Where the comparator agrees with the order of an integer key, `arraySort`
returns a list sorted by that key. -/
theorem arraySort_pairwise {α : Type} (c : α → α → Option Int) (key : α → Int) (l : List α)
    (hk : ∀ x ∈ l, ∀ y ∈ l, (sortCompare c x y < 0 ↔ key x < key y)) :
    (arraySort c l).Pairwise (fun a b => key a ≤ key b) := by
  have hmem : ∀ a, a ∈ (countAndMakeRun c l).1 ++ (countAndMakeRun c l).2 → a ∈ l :=
    fun a ha => (countAndMakeRun_perm c l).mem_iff.mp ha
  exact (binaryInsertionSort_sorted c key _ _ (countAndMakeRun_sorted c key l hk)
    (fun a ha b hb => hk a (hmem a ha) b (hmem b hb))).1

/-- Where the comparator agrees with the order of an integer key, `arraySort` is
stable: the elements of one key keep their order. -/
theorem arraySort_stable {α : Type} (c : α → α → Option Int) (key : α → Int) (l : List α)
    (hk : ∀ x ∈ l, ∀ y ∈ l, (sortCompare c x y < 0 ↔ key x < key y)) (t : Int) :
    (arraySort c l).filter (fun e => decide (key e = t))
      = l.filter (fun e => decide (key e = t)) := by
  have hmem : ∀ a, a ∈ (countAndMakeRun c l).1 ++ (countAndMakeRun c l).2 → a ∈ l :=
    fun a ha => (countAndMakeRun_perm c l).mem_iff.mp ha
  have h := (binaryInsertionSort_sorted c key _ _ (countAndMakeRun_sorted c key l hk)
    (fun a ha b hb => hk a (hmem a ha) b (hmem b hb))).2 t
  unfold arraySort
  rw [h, countAndMakeRun_filter c key l hk t]

/-- Two arrangements of the same elements, both sorted by a key without repeats,
are the same list. -/
theorem eq_of_perm_of_key_sorted {α : Type} (key : α → Int) (l₁ l₂ : List α)
    (hp : l₁.Perm l₂) (h₁ : l₁.Pairwise (fun a b => key a ≤ key b))
    (h₂ : l₂.Pairwise (fun a b => key a ≤ key b)) (hnd : (l₂.map key).Nodup) :
    l₁ = l₂ := by
  have hnd₂ : l₂.Pairwise (fun a b => key a ≠ key b) := List.pairwise_map.mp hnd
  have hnd₁ : l₁.Pairwise (fun a b => key a ≠ key b) :=
    List.pairwise_map.mp ((hp.map key).nodup_iff.mpr hnd)
  have s₁ : l₁.Pairwise (fun a b => key a < key b) :=
    (h₁.and hnd₁).imp (fun h => lt_of_le_of_ne h.1 h.2)
  have s₂ : l₂.Pairwise (fun a b => key a < key b) :=
    (h₂.and hnd₂).imp (fun h => lt_of_le_of_ne h.1 h.2)
  haveI : IsAntisymm α (fun a b => key a < key b) :=
    ⟨fun a b hab hba => absurd (lt_trans hab hba) (lt_irrefl _)⟩
  exact List.eq_of_perm_of_sorted hp s₁ s₂

/-! ## Lemmas on the Dashboard comparator -/

theorem sortCompare_asc (parse : String → Option Int) (a b : Entry) (x y : Int)
    (ha : parse a.timestamp = some x) (hb : parse b.timestamp = some y) :
    sortCompare (dateComparator parse "asc") a b = x - y := by
  simp [sortCompare, dateComparator, numSub, ha, hb]

theorem sortCompare_desc (parse : String → Option Int) (o : String) (ho : o ≠ "asc")
    (a b : Entry) (x y : Int)
    (ha : parse a.timestamp = some x) (hb : parse b.timestamp = some y) :
    sortCompare (dateComparator parse o) a b = y - x := by
  simp [sortCompare, dateComparator, numSub, ha, hb, ho]

/-- Ascending order of the time values, on a list of valid timestamps. -/
theorem sortedEntries_asc_key (parse : String → Option Int) (l : List Entry)
    (hvalid : ∀ e ∈ l, ∃ t, parse e.timestamp = some t) :
    (arraySort (dateComparator parse "asc") l).Pairwise
      (fun a b => (parse a.timestamp).getD 0 ≤ (parse b.timestamp).getD 0) := by
  apply arraySort_pairwise (dateComparator parse "asc") (fun e => (parse e.timestamp).getD 0)
  intro a ha b hb
  obtain ⟨x, hx⟩ := hvalid a ha
  obtain ⟨y, hy⟩ := hvalid b hb
  rw [sortCompare_asc parse a b x y hx hy]
  simp only [hx, hy, Option.getD_some]
  omega

/-- Descending order of the time values, on a list of valid timestamps. -/
theorem sortedEntries_desc_key (parse : String → Option Int) (o : String) (ho : o ≠ "asc")
    (l : List Entry) (hvalid : ∀ e ∈ l, ∃ t, parse e.timestamp = some t) :
    (arraySort (dateComparator parse o) l).Pairwise
      (fun a b => (parse b.timestamp).getD 0 ≤ (parse a.timestamp).getD 0) := by
  have h := arraySort_pairwise (dateComparator parse o)
    (fun e => - (parse e.timestamp).getD 0) l (by
      intro a ha b hb
      obtain ⟨x, hx⟩ := hvalid a ha
      obtain ⟨y, hy⟩ := hvalid b hb
      rw [sortCompare_desc parse o ho a b x y hx hy]
      simp only [hx, hy, Option.getD_some]
      omega)
  exact h.imp (fun hab => by simp only at hab; omega)

/-- On a list of valid timestamps the entries of one time value keep their order,
under either comparator. -/
theorem arraySort_date_stable (parse : String → Option Int) (o : String) (l : List Entry)
    (hvalid : ∀ e ∈ l, ∃ t, parse e.timestamp = some t) (t : Int) :
    (arraySort (dateComparator parse o) l).filter (fun e => decide (parse e.timestamp = some t))
      = l.filter (fun e => decide (parse e.timestamp = some t)) := by
  have hsorted : ∀ e ∈ arraySort (dateComparator parse o) l, ∃ x, parse e.timestamp = some x :=
    fun e he => hvalid e ((arraySort_perm _ l).mem_iff.mp he)
  by_cases ho : o = "asc"
  · subst ho
    have hcongr : ∀ l' : List Entry, (∀ e ∈ l', ∃ x, parse e.timestamp = some x) →
        l'.filter (fun e => decide (parse e.timestamp = some t))
          = l'.filter (fun e => decide ((parse e.timestamp).getD 0 = t)) := by
      intro l' hv
      apply List.filter_congr
      intro e he
      obtain ⟨x, hx⟩ := hv e he
      simp [hx]
    rw [hcongr _ hsorted, hcongr l hvalid]
    apply arraySort_stable (dateComparator parse "asc") (fun e => (parse e.timestamp).getD 0)
    intro a ha b hb
    obtain ⟨x, hx⟩ := hvalid a ha
    obtain ⟨y, hy⟩ := hvalid b hb
    rw [sortCompare_asc parse a b x y hx hy]
    simp only [hx, hy, Option.getD_some]
    omega
  · have hcongr : ∀ l' : List Entry, (∀ e ∈ l', ∃ x, parse e.timestamp = some x) →
        l'.filter (fun e => decide (parse e.timestamp = some t))
          = l'.filter (fun e => decide (- (parse e.timestamp).getD 0 = - t)) := by
      intro l' hv
      apply List.filter_congr
      intro e he
      obtain ⟨x, hx⟩ := hv e he
      simp [hx]
    rw [hcongr _ hsorted, hcongr l hvalid]
    apply arraySort_stable (dateComparator parse o) (fun e => - (parse e.timestamp).getD 0)
    intro a ha b hb
    obtain ⟨x, hx⟩ := hvalid a ha
    obtain ⟨y, hy⟩ := hvalid b hb
    rw [sortCompare_desc parse o ho a b x y hx hy]
    simp only [hx, hy, Option.getD_some]
    omega

/-- Distinct parsed timestamps give distinct keys on a list of valid timestamps. -/
theorem key_nodup (parse : String → Option Int) (l : List Entry)
    (hvalid : ∀ e ∈ l, ∃ t, parse e.timestamp = some t)
    (hdistinct : (l.map (fun e => parse e.timestamp)).Nodup) :
    (l.map (fun e => (parse e.timestamp).getD 0)).Nodup := by
  have h : l.Pairwise (fun a b => parse a.timestamp ≠ parse b.timestamp) :=
    List.pairwise_map.mp hdistinct
  refine List.pairwise_map.mpr (h.imp_of_mem ?_)
  intro a b ha hb hne heq
  obtain ⟨x, hx⟩ := hvalid a ha
  obtain ⟨y, hy⟩ := hvalid b hb
  apply hne
  simp only [hx, hy, Option.getD_some] at heq
  rw [hx, hy, heq]

/-- On valid, pairwise distinct timestamps the ascending sort is the reverse of the
descending sort. -/
theorem arraySort_asc_eq_reverse_desc (parse : String → Option Int) (o : String)
    (ho : o ≠ "asc") (l : List Entry)
    (hvalid : ∀ e ∈ l, ∃ t, parse e.timestamp = some t)
    (hdistinct : (l.map (fun e => parse e.timestamp)).Nodup) :
    arraySort (dateComparator parse "asc") l
      = (arraySort (dateComparator parse o) l).reverse := by
  have pa := arraySort_perm (dateComparator parse "asc") l
  have pd := arraySort_perm (dateComparator parse o) l
  have prd : (arraySort (dateComparator parse o) l).reverse.Perm l :=
    (List.reverse_perm _).trans pd
  apply eq_of_perm_of_key_sorted (fun e => (parse e.timestamp).getD 0)
  · exact pa.trans prd.symm
  · exact sortedEntries_asc_key parse l hvalid
  · exact List.pairwise_reverse.mpr (sortedEntries_desc_key parse o ho l hvalid)
  · exact ((prd.map _).nodup_iff).mpr (key_nodup parse l hvalid hdistinct)

theorem exists_of_ne_none (parse : String → Option Int) (l : List Entry)
    (hvalid : ∀ e ∈ l, parse e.timestamp ≠ none) :
    ∀ e ∈ l, ∃ t, parse e.timestamp = some t :=
  fun e he => Option.ne_none_iff_exists'.mp (hvalid e he)

/-! ## Dashboard: sort, filter, rows -/

/-- C1, as stated, fails: two entries with the same timestamp are shown in fetch
order under both sort orders, so the ascending view is not the reverse of the
descending view. -/
theorem asc_ne_reverse_desc_on_tie :
    filteredEntries exampleDate
        (setSortOrder "asc" (fetchResolved [entryA, entryA2] DashboardState.initial))
      ≠ (filteredEntries exampleDate
        (setSortOrder "desc" (fetchResolved [entryA, entryA2] DashboardState.initial))).reverse := by
  decide

/-- C1, amended: when all timestamps parse to valid dates and no two parsed
timestamps are equal, the list shown under sort order 'asc' is the reverse of the
list shown under any other sort order (in particular 'desc'), with the same
entries and the same filter. -/
theorem filteredEntries_asc_eq_reverse_desc (parse : String → Option Int)
    (s : DashboardState) (o : String) (ho : o ≠ "asc")
    (hvalid : ∀ e ∈ s.entries, parse e.timestamp ≠ none)
    (hdistinct : (s.entries.map (fun e => parse e.timestamp)).Nodup) :
    filteredEntries parse (setSortOrder "asc" s)
      = (filteredEntries parse (setSortOrder o s)).reverse := by
  have h := arraySort_asc_eq_reverse_desc parse o ho s.entries
    (exists_of_ne_none parse s.entries hvalid) hdistinct
  unfold filteredEntries sortedEntries setSortOrder
  simp only
  by_cases hf : s.filterStatus = "all"
  · simp only [hf, if_true]
    exact h
  · simp only [hf, if_false]
    rw [h, List.filter_reverse]

theorem filteredEntries_asc_eq_reverse_desc_witness :
    "desc" ≠ "asc"
      ∧ (∀ e ∈ (fetchResolved [entryB, entryC, entryA] DashboardState.initial).entries,
          exampleDate e.timestamp ≠ none)
      ∧ ((fetchResolved [entryB, entryC, entryA] DashboardState.initial).entries.map
          (fun e => exampleDate e.timestamp)).Nodup
      ∧ filteredEntries exampleDate
          (setSortOrder "asc" (fetchResolved [entryB, entryC, entryA] DashboardState.initial))
        = (filteredEntries exampleDate
          (setSortOrder "desc"
            (fetchResolved [entryB, entryC, entryA] DashboardState.initial))).reverse :=
  ⟨by decide, by decide, by decide,
    filteredEntries_asc_eq_reverse_desc exampleDate
      (fetchResolved [entryB, entryC, entryA] DashboardState.initial) "desc"
      (by decide) (by decide) (by decide)⟩

/-- C2, as stated, fails: with one unparsable timestamp in the list the comparator
is inconsistent and the sort no longer keeps ties in place.  On the seven fetched
entries with timestamps 01-01, 01-03, 01-02, 01-01, garbage, 01-02, 01-02 and sort
order 'asc', `sortedEntries` is e0, e3, e2, e6, e1, e4, e5: e5 and e6 have the same
parsed timestamp, e5 was fetched before e6, and e6 is listed before e5. -/
theorem sortedEntries_unstable_with_invalid :
    sortedEntries exampleDate (setSortOrder "asc" (fetchResolved mixedEntries DashboardState.initial))
        = [sampleEntry "e0" "2024-01-01T00:00:00Z", sampleEntry "e3" "2024-01-01T00:00:00Z",
            sampleEntry "e2" "2024-01-02T00:00:00Z", sampleEntry "e6" "2024-01-02T00:00:00Z",
            sampleEntry "e1" "2024-01-03T00:00:00Z", sampleEntry "e4" "garbage",
            sampleEntry "e5" "2024-01-02T00:00:00Z"]
      ∧ exampleDate (sampleEntry "e5" "2024-01-02T00:00:00Z").timestamp
          = exampleDate (sampleEntry "e6" "2024-01-02T00:00:00Z").timestamp
      ∧ exampleDate (sampleEntry "e5" "2024-01-02T00:00:00Z").timestamp ≠ none
      ∧ List.Sublist
          [sampleEntry "e5" "2024-01-02T00:00:00Z", sampleEntry "e6" "2024-01-02T00:00:00Z"]
          (setSortOrder "asc" (fetchResolved mixedEntries DashboardState.initial)).entries
      ∧ ¬ List.Sublist
          [sampleEntry "e5" "2024-01-02T00:00:00Z", sampleEntry "e6" "2024-01-02T00:00:00Z"]
          (sortedEntries exampleDate
            (setSortOrder "asc" (fetchResolved mixedEntries DashboardState.initial))) := by
  decide

/-- C2, amended: when every timestamp of the fetched list parses to a valid date,
the Dashboard sort is stable under every sort order ('asc', 'desc' or any other
value of `sortOrder`): for every time value `t`, the entries whose timestamp parses
to `t` appear in `sortedEntries` in exactly the order they have in the fetched
`entries`; in particular a pair `a` before `b` of such entries in `entries` is
still `a` before `b` in `sortedEntries`. -/
theorem sortedEntries_stable (parse : String → Option Int) (s : DashboardState)
    (hvalid : ∀ e ∈ s.entries, parse e.timestamp ≠ none) (t : Int) :
    (sortedEntries parse s).filter (fun e => parse e.timestamp = some t)
        = s.entries.filter (fun e => parse e.timestamp = some t)
      ∧ ∀ a b : Entry, parse a.timestamp = some t → parse b.timestamp = some t →
          List.Sublist [a, b] s.entries → List.Sublist [a, b] (sortedEntries parse s) := by
  have hfilter : (sortedEntries parse s).filter (fun e => parse e.timestamp = some t)
      = s.entries.filter (fun e => parse e.timestamp = some t) :=
    arraySort_date_stable parse s.sortOrder s.entries
      (exists_of_ne_none parse s.entries hvalid) t
  refine ⟨hfilter, ?_⟩
  intro a b ha hb hsub
  have h1 := hsub.filter (fun e => decide (parse e.timestamp = some t))
  have h2 : List.filter (fun e => decide (parse e.timestamp = some t)) [a, b] = [a, b] := by
    simp [List.filter_cons, ha, hb]
  rw [h2, ← hfilter] at h1
  exact h1.trans (List.filter_sublist _)

theorem sortedEntries_stable_witness :
    (∀ e ∈ (fetchResolved [entryB, entryA, entryC, entryA2] DashboardState.initial).entries,
        exampleDate e.timestamp ≠ none)
      ∧ (sortedEntries exampleDate
          (fetchResolved [entryB, entryA, entryC, entryA2] DashboardState.initial)).filter
          (fun e => exampleDate e.timestamp = some 1704067200000) = [entryA, entryA2]
      ∧ List.Sublist [entryA, entryA2]
          (sortedEntries exampleDate
            (fetchResolved [entryB, entryA, entryC, entryA2] DashboardState.initial)) :=
  ⟨by decide,
    (sortedEntries_stable exampleDate
      (fetchResolved [entryB, entryA, entryC, entryA2] DashboardState.initial) (by decide)
      1704067200000).1.trans (by decide),
    (sortedEntries_stable exampleDate
      (fetchResolved [entryB, entryA, entryC, entryA2] DashboardState.initial) (by decide)
      1704067200000).2 entryA entryA2 (by decide) (by decide) (by decide)⟩

/-- Three entries with increasing time values, in whatever order they were fetched,
sort to newest first under a descending comparator. -/
theorem arraySort_three_desc (parse : String → Option Int) (o : String) (ho : o ≠ "asc")
    (e1 e2 e3 : Entry) (t1 t2 t3 : Int)
    (h1 : parse e1.timestamp = some t1) (h2 : parse e2.timestamp = some t2)
    (h3 : parse e3.timestamp = some t3) (h12 : t1 < t2) (h23 : t2 < t3)
    (l : List Entry) (hl : l.Perm [e1, e2, e3]) :
    arraySort (dateComparator parse o) l = [e3, e2, e1] := by
  have hvalid : ∀ e ∈ l, ∃ t, parse e.timestamp = some t := by
    intro e he
    have hm := hl.mem_iff.mp he
    simp only [List.mem_cons, List.mem_singleton, List.not_mem_nil, or_false] at hm
    rcases hm with rfl | rfl | rfl
    · exact ⟨t1, h1⟩
    · exact ⟨t2, h2⟩
    · exact ⟨t3, h3⟩
  have hperm : (arraySort (dateComparator parse o) l).Perm [e3, e2, e1] := by
    have hr : [e1, e2, e3].Perm [e3, e2, e1] := by
      simpa using (List.reverse_perm [e1, e2, e3]).symm
    exact ((arraySort_perm _ l).trans hl).trans hr
  apply eq_of_perm_of_key_sorted (fun e => - (parse e.timestamp).getD 0) _ _ hperm
  · exact (sortedEntries_desc_key parse o ho l hvalid).imp (fun hab => Int.neg_le_neg hab)
  · simp [h1, h2, h3]
    omega
  · simp [h1, h2, h3]
    omega

/-- C3: when every timestamp parses to a valid date, `sortedEntries` is a
permutation of `entries` (computed on a copy: `entries` itself is the same list
before and after), with non-decreasing time values when `sortOrder` is 'asc' and
non-increasing time values otherwise; the initial `sortOrder` is 'desc' and the
initial filter is 'all', and in that default view three fetched entries with time
values T1 < T2 < T3 are listed, and rendered, in the order T3, T2, T1. -/
theorem sortedEntries_perm_ordered (parse : String → Option Int) (s : DashboardState)
    (hvalid : ∀ e ∈ s.entries, parse e.timestamp ≠ none) :
    (sortedEntries parse s).Perm s.entries
      ∧ (s.sortOrder = "asc" → (sortedEntries parse s).Pairwise
          (fun a b => ∃ x y, parse a.timestamp = some x ∧ parse b.timestamp = some y ∧ x ≤ y))
      ∧ (s.sortOrder ≠ "asc" → (sortedEntries parse s).Pairwise
          (fun a b => ∃ x y, parse a.timestamp = some x ∧ parse b.timestamp = some y ∧ y ≤ x))
      ∧ DashboardState.initial.sortOrder = "desc"
      ∧ DashboardState.initial.filterStatus = "all"
      ∧ ∀ (e1 e2 e3 : Entry) (t1 t2 t3 : Int),
          parse e1.timestamp = some t1 → parse e2.timestamp = some t2 →
          parse e3.timestamp = some t3 → t1 < t2 → t2 < t3 →
          ∀ l : List Entry, l.Perm [e1, e2, e3] →
            filteredEntries parse (fetchResolved l DashboardState.initial) = [e3, e2, e1]
              ∧ tbodyRows parse (fetchResolved l DashboardState.initial)
                = [renderEntry e3, renderEntry e2, renderEntry e1] := by
  have hex := exists_of_ne_none parse s.entries hvalid
  have hperm : (sortedEntries parse s).Perm s.entries := arraySort_perm _ _
  have hmem : ∀ e ∈ sortedEntries parse s, ∃ t, parse e.timestamp = some t :=
    fun e he => hex e (hperm.mem_iff.mp he)
  refine ⟨hperm, ?_, ?_, rfl, rfl, ?_⟩
  · intro hasc
    have h := sortedEntries_asc_key parse s.entries hex
    have h2 : (sortedEntries parse s).Pairwise
        (fun a b => (parse a.timestamp).getD 0 ≤ (parse b.timestamp).getD 0) := by
      unfold sortedEntries; rw [hasc]; exact h
    refine h2.imp_of_mem ?_
    intro a b ha hb hab
    obtain ⟨x, hx⟩ := hmem a ha
    obtain ⟨y, hy⟩ := hmem b hb
    refine ⟨x, y, hx, hy, ?_⟩
    simpa [hx, hy] using hab
  · intro hdesc
    have h2 : (sortedEntries parse s).Pairwise
        (fun a b => (parse b.timestamp).getD 0 ≤ (parse a.timestamp).getD 0) :=
      sortedEntries_desc_key parse s.sortOrder hdesc s.entries hex
    refine h2.imp_of_mem ?_
    intro a b ha hb hab
    obtain ⟨x, hx⟩ := hmem a ha
    obtain ⟨y, hy⟩ := hmem b hb
    refine ⟨x, y, hx, hy, ?_⟩
    simpa [hx, hy] using hab
  · intro e1 e2 e3 t1 t2 t3 h1 h2 h3 h12 h23 l hl
    have hs : filteredEntries parse (fetchResolved l DashboardState.initial) = [e3, e2, e1] := by
      have := arraySort_three_desc parse "desc" (by decide) e1 e2 e3 t1 t2 t3 h1 h2 h3 h12 h23 l hl
      simpa [filteredEntries, sortedEntries, fetchResolved, DashboardState.initial] using this
    refine ⟨hs, ?_⟩
    unfold tbodyRows
    rw [hs]
    simp

theorem sortedEntries_perm_ordered_witness :
    (∀ e ∈ (fetchResolved [entryB, entryA, entryC] DashboardState.initial).entries,
        exampleDate e.timestamp ≠ none)
      ∧ (sortedEntries exampleDate
          (fetchResolved [entryB, entryA, entryC] DashboardState.initial)).Perm
          [entryB, entryA, entryC]
      ∧ filteredEntries exampleDate (fetchResolved [entryB, entryA, entryC] DashboardState.initial)
          = [entryC, entryB, entryA] :=
  ⟨by decide,
    (sortedEntries_perm_ordered exampleDate
      (fetchResolved [entryB, entryA, entryC] DashboardState.initial) (by decide)).1,
    ((sortedEntries_perm_ordered exampleDate
      (fetchResolved [entryB, entryA, entryC] DashboardState.initial) (by decide)).2.2.2.2.2
        entryA entryB entryC 1704067200000 1704153600000 1704240000000
        (by decide) (by decide) (by decide) (by decide) (by decide)
        [entryB, entryA, entryC] (by decide)).1⟩

/-- C4: for a `filterStatus` other than 'all', `filteredEntries` holds exactly the
entries of `sortedEntries` whose status equals `filterStatus` (an entry is in it iff
it is in `sortedEntries` with that status, and every such entry occurs as often as
in `sortedEntries`), in the relative order of `sortedEntries`; for 'all' it is
`sortedEntries` in full. -/
theorem filteredEntries_exact (parse : String → Option Int) (s : DashboardState) :
    (s.filterStatus ≠ "all" →
        (∀ e, e ∈ filteredEntries parse s
            ↔ e ∈ sortedEntries parse s ∧ e.status = s.filterStatus)
          ∧ (∀ e, e.status = s.filterStatus →
              (filteredEntries parse s).count e = (sortedEntries parse s).count e)
          ∧ List.Sublist (filteredEntries parse s) (sortedEntries parse s))
      ∧ (s.filterStatus = "all" → filteredEntries parse s = sortedEntries parse s) := by
  constructor
  · intro hne
    have hf : filteredEntries parse s
        = (sortedEntries parse s).filter (fun entry => entry.status = s.filterStatus) := by
      unfold filteredEntries
      rw [if_neg hne]
    refine ⟨?_, ?_, ?_⟩
    · intro e
      rw [hf, List.mem_filter]
      simp
    · intro e he
      rw [hf]
      exact List.count_filter (by simpa using he)
    · rw [hf]
      exact List.filter_sublist _
  · intro hall
    unfold filteredEntries
    rw [if_pos hall]

/-- C10: the table body shows the single placeholder row 'No entries found.' when
`filteredEntries` is empty (in particular when no entries were fetched), and
otherwise one row per element of `filteredEntries`, in order, none of them a
placeholder; it never has zero rows. -/
theorem tbodyRows_shape (parse : String → Option Int) (s : DashboardState) :
    (filteredEntries parse s = [] →
        tbodyRows parse s = [TableRow.placeholder "4" "No entries found."])
      ∧ (s.entries = [] → tbodyRows parse s = [TableRow.placeholder "4" "No entries found."])
      ∧ (filteredEntries parse s ≠ [] →
          tbodyRows parse s = (filteredEntries parse s).map renderEntry
            ∧ (tbodyRows parse s).length = (filteredEntries parse s).length
            ∧ ∀ c t, TableRow.placeholder c t ∉ tbodyRows parse s)
      ∧ tbodyRows parse s ≠ []
      ∧ 1 ≤ (tbodyRows parse s).length := by
  have hempty : filteredEntries parse s = [] →
      tbodyRows parse s = [TableRow.placeholder "4" "No entries found."] := by
    intro h
    unfold tbodyRows
    rw [h]
    rfl
  have hfull : filteredEntries parse s ≠ [] →
      tbodyRows parse s = (filteredEntries parse s).map renderEntry := by
    intro h
    unfold tbodyRows
    rw [if_neg (by simpa [List.length_eq_zero] using h)]
  have hne : tbodyRows parse s ≠ [] := by
    by_cases h : filteredEntries parse s = []
    · rw [hempty h]; simp
    · rw [hfull h]; simpa using h
  refine ⟨hempty, ?_, ?_, hne, ?_⟩
  · intro h
    apply hempty
    unfold filteredEntries sortedEntries
    rw [h]
    simp [arraySort, countAndMakeRun, binaryInsertionSort]
  · intro h
    refine ⟨hfull h, ?_, ?_⟩
    · rw [hfull h, List.length_map]
    · intro c t hmem
      rw [hfull h, List.mem_map] at hmem
      obtain ⟨e, _, he⟩ := hmem
      simp [renderEntry] at he
  · exact List.length_pos.mpr hne

/-! ## Upload page: submit handlers -/

theorem dropWhile_eq_nil_of_all {α : Type} (p : α → Bool) (l : List α)
    (h : ∀ c ∈ l, p c = true) : l.dropWhile p = [] := by
  induction l with
  | nil => rfl
  | cons x xs ih =>
    rw [List.dropWhile_cons, if_pos (h x (List.mem_cons_self x xs))]
    exact ih (fun c hc => h c (List.mem_cons_of_mem x hc))

theorem all_of_dropWhile_eq_nil {α : Type} (p : α → Bool) (l : List α)
    (h : l.dropWhile p = []) : ∀ c ∈ l, p c = true := by
  induction l with
  | nil => intro c hc; cases hc
  | cons x xs ih =>
    by_cases hx : p x = true
    · rw [List.dropWhile_cons, if_pos hx] at h
      intro c hc
      rcases List.mem_cons.mp hc with rfl | hc
      · exact hx
      · exact ih h c hc
    · rw [List.dropWhile_cons, if_neg hx] at h
      cases h

theorem head_dropWhile_not {α : Type} (p : α → Bool) (l : List α) (x : α)
    (hx : x ∈ l.dropWhile p) : ∃ y ∈ l.dropWhile p, p y = false := by
  induction l with
  | nil => cases hx
  | cons a as ih =>
    by_cases ha : p a = true
    · rw [List.dropWhile_cons, if_pos ha] at hx ⊢
      exact ih hx
    · rw [List.dropWhile_cons, if_neg ha]
      exact ⟨a, List.mem_cons_self a as, by simpa using ha⟩

/-- The trimmed text is empty exactly when every character is white space. -/
theorem jsTrim_eq_empty_iff (t : String) :
    jsTrim t = "" ↔ ∀ c ∈ t.data, isJsWhiteSpace c = true := by
  constructor
  · intro h
    have h1 : ((t.data.dropWhile isJsWhiteSpace).reverse.dropWhile isJsWhiteSpace).reverse = [] := by
      have := congrArg String.data h
      simpa [jsTrim] using this
    have h2 : (t.data.dropWhile isJsWhiteSpace).reverse.dropWhile isJsWhiteSpace = [] := by
      simpa using h1
    have h3 := all_of_dropWhile_eq_nil _ _ h2
    have h4 : t.data.dropWhile isJsWhiteSpace = [] := by
      cases hd : t.data.dropWhile isJsWhiteSpace with
      | nil => rfl
      | cons x xs =>
        exfalso
        have hx : x ∈ t.data.dropWhile isJsWhiteSpace := by rw [hd]; exact List.mem_cons_self x xs
        obtain ⟨y, hy, hpy⟩ := head_dropWhile_not isJsWhiteSpace t.data x hx
        have := h3 y (List.mem_reverse.mpr hy)
        rw [hpy] at this
        cases this
    exact all_of_dropWhile_eq_nil _ _ h4
  · intro h
    unfold jsTrim
    rw [dropWhile_eq_nil_of_all _ _ h]
    rfl

/-- C5, as stated, fails: a rejected upload whose response carries the error field
`""` does not set the error state to that field's text but to the generic message. -/
theorem upload_failure_empty_error_field :
    errorField emptyErrorRejection = some ""
      ∧ (handleImageSubmit (fun _ => AxiosResult.rejected emptyErrorRejection)
          capturedState).1.error = "Error uploading image."
      ∧ (handleImageSubmit (fun _ => AxiosResult.rejected emptyErrorRejection)
          capturedState).1.error ≠ "" := by
  decide

/-- C5, amended: for every failed image upload (a capture is pending and the POST
to /upload rejects), if the response carries a non-empty error field the error
state is exactly that field's text; if there is no response, no response body, no
error field, or the field is the empty string, the error state is the fixed
message 'Error uploading image.'; in every case the pending capture (`image`) and
`preview` are unchanged, and one request was sent. -/
theorem handleImageSubmit_failure (post : Request → AxiosResult UploadData)
    (s : UploadState) (blob : Blob) (err : AxiosError)
    (himage : s.image = some blob) (hpost : post (uploadRequest blob) = AxiosResult.rejected err) :
    (∀ msg, errorField err = some msg → msg ≠ "" →
        (handleImageSubmit post s).1.error = msg)
      ∧ (errorField err = none ∨ errorField err = some "" →
          (handleImageSubmit post s).1.error = "Error uploading image.")
      ∧ (err.response = none → (handleImageSubmit post s).1.error = "Error uploading image.")
      ∧ (handleImageSubmit post s).1.image = s.image
      ∧ (handleImageSubmit post s).1.preview = s.preview
      ∧ (handleImageSubmit post s).2 = [uploadRequest blob] := by
  have h : handleImageSubmit post s
      = ({ s with error := orDefault (errorField err) "Error uploading image." },
          [uploadRequest blob]) := by
    unfold handleImageSubmit
    rw [himage]
    simp only [hpost]
  rw [h]
  refine ⟨?_, ?_, ?_, rfl, rfl, rfl⟩
  · intro msg hmsg hne
    simp [orDefault, hmsg, hne]
  · intro hcase
    rcases hcase with hnone | hempty
    · simp [orDefault, hnone]
    · simp [orDefault, hempty]
  · intro hresp
    simp [orDefault, errorField, hresp]

theorem handleImageSubmit_failure_witness :
    capturedState.image = some { content := "jpeg-bytes" }
      ∧ (fun _ => AxiosResult.rejected plateErrorRejection : Request → AxiosResult UploadData)
          (uploadRequest { content := "jpeg-bytes" }) = AxiosResult.rejected plateErrorRejection
      ∧ (handleImageSubmit (fun _ => AxiosResult.rejected plateErrorRejection)
          capturedState).1.error = "No plate detected"
      ∧ (handleImageSubmit (fun _ => AxiosResult.rejected plateErrorRejection)
          capturedState).1.image = capturedState.image :=
  ⟨rfl, rfl,
    (handleImageSubmit_failure (fun _ => AxiosResult.rejected plateErrorRejection) capturedState
      { content := "jpeg-bytes" } plateErrorRejection rfl rfl).1 "No plate detected"
      (by decide) (by decide),
    (handleImageSubmit_failure (fun _ => AxiosResult.rejected plateErrorRejection) capturedState
      { content := "jpeg-bytes" } plateErrorRejection rfl rfl).2.2.2.1⟩

/-- C7: in every page state and whatever the network would answer,
`handleImageSubmit` with `image` null sends no request and sets `error` to
'Please capture an image.', and `handleTextSubmit` with a text that is empty or
consists of white space only (equivalently: `text.trim()` is empty) sends no
request and sets `error` to 'Please enter some text.'; in both cases `result`,
`text`, `image` and `preview` (and `stream`) keep their values. -/
theorem submit_validation (postImage : Request → AxiosResult UploadData)
    (postText : Request → AxiosResult TextData) (s : UploadState) :
    (s.image = none →
        (handleImageSubmit postImage s).2 = []
          ∧ (handleImageSubmit postImage s).1.error = "Please capture an image."
          ∧ (handleImageSubmit postImage s).1.result = s.result
          ∧ (handleImageSubmit postImage s).1.text = s.text
          ∧ (handleImageSubmit postImage s).1.image = s.image
          ∧ (handleImageSubmit postImage s).1.preview = s.preview
          ∧ (handleImageSubmit postImage s).1.stream = s.stream)
      ∧ ((∀ c ∈ s.text.data, isJsWhiteSpace c = true) →
          (handleTextSubmit postText s).2 = []
            ∧ (handleTextSubmit postText s).1.error = "Please enter some text."
            ∧ (handleTextSubmit postText s).1.result = s.result
            ∧ (handleTextSubmit postText s).1.text = s.text
            ∧ (handleTextSubmit postText s).1.image = s.image
            ∧ (handleTextSubmit postText s).1.preview = s.preview
            ∧ (handleTextSubmit postText s).1.stream = s.stream)
      ∧ (jsTrim s.text = "" ↔ ∀ c ∈ s.text.data, isJsWhiteSpace c = true) := by
  refine ⟨?_, ?_, jsTrim_eq_empty_iff s.text⟩
  · intro himage
    have h : handleImageSubmit postImage s
        = ({ s with error := "Please capture an image." }, []) := by
      unfold handleImageSubmit
      rw [himage]
    rw [h]
    exact ⟨rfl, rfl, rfl, rfl, rfl, rfl, rfl⟩
  · intro hblank
    have h : handleTextSubmit postText s
        = ({ s with error := "Please enter some text." }, []) := by
      unfold handleTextSubmit
      rw [if_pos ((jsTrim_eq_empty_iff s.text).mpr hblank)]
    rw [h]
    exact ⟨rfl, rfl, rfl, rfl, rfl, rfl, rfl⟩

theorem submit_validation_witness :
    (handleImageSubmit (fun _ => AxiosResult.resolved exampleUploadData)
        { UploadState.initial with text := " \t\n" }).2 = []
      ∧ (handleTextSubmit (fun _ => AxiosResult.resolved { message := "ok", timestamp := "now" })
        { UploadState.initial with text := " \t\n" }).2 = []
      ∧ (handleTextSubmit (fun _ => AxiosResult.resolved { message := "ok", timestamp := "now" })
        { UploadState.initial with text := " \t\n" }).1.error = "Please enter some text." :=
  ⟨((submit_validation (fun _ => AxiosResult.resolved exampleUploadData)
      (fun _ => AxiosResult.resolved { message := "ok", timestamp := "now" })
      { UploadState.initial with text := " \t\n" }).1 rfl).1,
    ((submit_validation (fun _ => AxiosResult.resolved exampleUploadData)
      (fun _ => AxiosResult.resolved { message := "ok", timestamp := "now" })
      { UploadState.initial with text := " \t\n" }).2.1 (by decide)).1,
    ((submit_validation (fun _ => AxiosResult.resolved exampleUploadData)
      (fun _ => AxiosResult.resolved { message := "ok", timestamp := "now" })
      { UploadState.initial with text := " \t\n" }).2.1 (by decide)).2.1⟩

/-- C8: for every successful image upload (a capture is pending and the POST to
/upload resolves with `plate_number`, `status` and `timestamp`), the handler sets
`image` to null, `preview` to null, `error` to the empty string and `result` to
'Plate: <plate_number> | Status: <status> | Time: <timestamp>', a string in which
each of the three returned values occurs verbatim. -/
theorem handleImageSubmit_success (post : Request → AxiosResult UploadData)
    (s : UploadState) (blob : Blob) (data : UploadData)
    (himage : s.image = some blob)
    (hpost : post (uploadRequest blob) = AxiosResult.resolved data) :
    (handleImageSubmit post s).1.image = none
      ∧ (handleImageSubmit post s).1.preview = none
      ∧ (handleImageSubmit post s).1.error = ""
      ∧ (handleImageSubmit post s).1.result
          = "Plate: " ++ data.plate_number ++ " | Status: " ++ data.status
              ++ " | Time: " ++ data.timestamp
      ∧ List.IsInfix data.plate_number.data (handleImageSubmit post s).1.result.data
      ∧ List.IsInfix data.status.data (handleImageSubmit post s).1.result.data
      ∧ List.IsInfix data.timestamp.data (handleImageSubmit post s).1.result.data := by
  have h : handleImageSubmit post s
      = ({ s with result := imageResult data, image := none, preview := none, error := "" },
          [uploadRequest blob]) := by
    unfold handleImageSubmit
    rw [himage]
    simp only [hpost]
  rw [h]
  refine ⟨rfl, rfl, rfl, rfl, ?_, ?_, ?_⟩
  · refine ⟨"Plate: ".data,
      (" | Status: " ++ data.status ++ " | Time: " ++ data.timestamp).data, ?_⟩
    simp [imageResult, String.data_append]
  · refine ⟨("Plate: " ++ data.plate_number ++ " | Status: ").data,
      (" | Time: " ++ data.timestamp).data, ?_⟩
    simp [imageResult, String.data_append]
  · refine ⟨("Plate: " ++ data.plate_number ++ " | Status: " ++ data.status
      ++ " | Time: ").data, [], ?_⟩
    simp [imageResult, String.data_append]

theorem handleImageSubmit_success_witness :
    capturedState.image = some { content := "jpeg-bytes" }
      ∧ (handleImageSubmit (fun _ => AxiosResult.resolved exampleUploadData) capturedState).1.result
        = "Plate: KA01AB1234 | Status: Authorized | Time: 2024-01-01T00:00:00Z"
      ∧ (handleImageSubmit (fun _ => AxiosResult.resolved exampleUploadData) capturedState).1.image
        = none :=
  ⟨rfl,
    (handleImageSubmit_success (fun _ => AxiosResult.resolved exampleUploadData) capturedState
      { content := "jpeg-bytes" } exampleUploadData rfl rfl).2.2.2.1.trans (by decide),
    (handleImageSubmit_success (fun _ => AxiosResult.resolved exampleUploadData) capturedState
      { content := "jpeg-bytes" } exampleUploadData rfl rfl).1⟩

/-! ## Upload page: camera effect -/

theorem step_effectRender (p : UploadPage) (e : UploadEvent) :
    (p.step e).effectRender = p.effectRender := by
  cases e <;> rfl

theorem step_liveTracks_mono (p : UploadPage) (e : UploadEvent) :
    ∀ t ∈ p.liveTracks, t ∈ (p.step e).liveTracks := by
  intro t ht
  cases e <;> first | exact ht | exact List.mem_append_left _ ht

theorem run_effectRender (events : List UploadEvent) :
    ∀ p : UploadPage, (p.run events).effectRender = p.effectRender := by
  induction events with
  | nil => intro p; rfl
  | cons e es ih =>
    intro p
    show ((p.step e).run es).effectRender = p.effectRender
    rw [ih (p.step e), step_effectRender]

theorem run_liveTracks_mono (events : List UploadEvent) :
    ∀ p : UploadPage, ∀ t ∈ p.liveTracks, t ∈ (p.run events).liveTracks := by
  induction events with
  | nil => intro p t ht; exact ht
  | cons e es ih =>
    intro p t ht
    show t ∈ ((p.step e).run es).liveTracks
    exact ih (p.step e) t (step_liveTracks_mono p e t ht)

/-- The registered cleanup reads the `stream` of the first render, which is null:
after the camera stream has been acquired and whatever happened on the page
afterwards, unmounting stops no track, and every track of the acquired stream is
still live. -/
theorem unmount_stops_nothing (mediaStream : MediaStream) (events : List UploadEvent) :
    ((UploadPage.mount.step (UploadEvent.cameraGranted mediaStream)).run events).unmount
        = ((UploadPage.mount.step (UploadEvent.cameraGranted mediaStream)).run events).liveTracks
      ∧ ∀ t ∈ mediaStream.tracks,
          t ∈ ((UploadPage.mount.step (UploadEvent.cameraGranted mediaStream)).run events).unmount := by
  have h : ((UploadPage.mount.step (UploadEvent.cameraGranted mediaStream)).run events).unmount
      = ((UploadPage.mount.step (UploadEvent.cameraGranted mediaStream)).run events).liveTracks := by
    unfold UploadPage.unmount
    rw [run_effectRender, step_effectRender]
    rfl
  refine ⟨h, ?_⟩
  intro t ht
  rw [h]
  apply run_liveTracks_mono
  exact List.mem_append_right _ ht

/-- C6 fails on the code: the page is mounted, the camera stream with tracks 1 and 2
is acquired (`setStream` ran, the state holds the stream), the page is unmounted;
the cleanup stops neither track, although stopping the stream the state holds would
have stopped both. -/
theorem unmount_after_acquire_leaves_tracks_live :
    (UploadPage.mount.step (UploadEvent.cameraGranted exampleStream)).state.stream
        = some exampleStream
      ∧ (UploadPage.mount.step (UploadEvent.cameraGranted exampleStream)).unmount = [1, 2]
      ∧ effectCleanup
          (UploadPage.mount.step (UploadEvent.cameraGranted exampleStream)).state.stream
          (UploadPage.mount.step (UploadEvent.cameraGranted exampleStream)).liveTracks = [] := by
  decide

/-! ## API service -/

theorem routeMatches_previous_logs_only (url : String)
    (h : routeMatches "/api/previous-logs" url = true) :
    routeMatches "/api/current-logs" url = false ∧ routeMatches "/api/slots" url = false := by
  unfold routeMatches at h ⊢
  simp only [Bool.or_eq_true, beq_iff_eq] at h
  rcases h with h | h <;> rw [h] <;> decide

theorem routeMatches_slots_only (url : String)
    (h : routeMatches "/api/slots" url = true) :
    routeMatches "/api/current-logs" url = false
      ∧ routeMatches "/api/previous-logs" url = false := by
  unfold routeMatches at h ⊢
  simp only [Bool.or_eq_true, beq_iff_eq] at h
  rcases h with h | h <;> rw [h] <;> decide

/-- C9, as stated, fails for GET /api/entries, the request the Dashboard sends on
mount: the service registers no such route, so with a store whose `entries` and
`car_logs` collections hold two documents the answer is 404, not a collection, and
the Dashboard ends with an empty list and its error message. -/
theorem entries_route_answers_not_found :
    handleGet (some exampleDb) dashboardFetchPath = HttpResponse.notFound
      ∧ handleGet (some exampleDb) dashboardFetchPath
          ≠ HttpResponse.json (exampleDb.collection "entries")
      ∧ handleGet (some exampleDb) dashboardFetchPath
          ≠ HttpResponse.json (exampleDb.collection "car_logs")
      ∧ (dashboardMount (some exampleDb)).entries = []
      ∧ (dashboardMount (some exampleDb)).error
          = "Error loading entries. Please try again later." := by
  decide

/-- C9, amended: for every store state, the API service answers each of
GET /api/current-logs, /api/previous-logs and /api/slots with the complete
contents of its collection (`car_logs`, `visitors`, `slots`) as the sequence of
documents in store order; the same holds for every request URL that matches the
route, whatever its query string, so nothing is filtered or paginated.  The service
has no route for GET /api/entries, which is answered 404. -/
theorem registered_routes_full (D : Type) (db : Database D) :
    handleGet (some db) "/api/current-logs" = HttpResponse.json (db.collection "car_logs")
      ∧ handleGet (some db) "/api/previous-logs" = HttpResponse.json (db.collection "visitors")
      ∧ handleGet (some db) "/api/slots" = HttpResponse.json (db.collection "slots")
      ∧ (∀ url, routeMatches "/api/current-logs" url = true →
          handleGet (some db) url = HttpResponse.json (db.collection "car_logs"))
      ∧ (∀ url, routeMatches "/api/previous-logs" url = true →
          handleGet (some db) url = HttpResponse.json (db.collection "visitors"))
      ∧ (∀ url, routeMatches "/api/slots" url = true →
          handleGet (some db) url = HttpResponse.json (db.collection "slots"))
      ∧ handleGet (some db) "/api/entries" = HttpResponse.notFound := by
  have hcur : ∀ url, routeMatches "/api/current-logs" url = true →
      handleGet (some db) url = HttpResponse.json (db.collection "car_logs") := by
    intro url h
    unfold handleGet
    rw [if_pos h]
    rfl
  have hprev : ∀ url, routeMatches "/api/previous-logs" url = true →
      handleGet (some db) url = HttpResponse.json (db.collection "visitors") := by
    intro url h
    unfold handleGet
    rw [if_neg (by simp [(routeMatches_previous_logs_only url h).1]), if_pos h]
    rfl
  have hslots : ∀ url, routeMatches "/api/slots" url = true →
      handleGet (some db) url = HttpResponse.json (db.collection "slots") := by
    intro url h
    unfold handleGet
    rw [if_neg (by simp [(routeMatches_slots_only url h).1]),
      if_neg (by simp [(routeMatches_slots_only url h).2]), if_pos h]
    rfl
  refine ⟨hcur _ (by decide), hprev _ (by decide), hslots _ (by decide),
    hcur, hprev, hslots, ?_⟩
  unfold handleGet
  rw [if_neg (by decide), if_neg (by decide), if_neg (by decide)]

end ParkSense
